import Mathlib

/-!
Verification of the Valorant round-boundary detection engine
(`round_detector.py`, class `RoundDetector`).

The Python code is shallowly embedded: timestamps become `Int`
(the claims exercise only integer inputs, and every arithmetic
operation the engine performs — subtraction, `max`, comparison,
floor division and modulus — is exact on integers), the fallible
timer parser becomes an `Option Int`-valued function, the per-reading
loop body becomes a pure step function on an explicit sweep-state
record, and the whole `detect_rounds` sweep becomes a left fold over
the readings sorted by a stable insertion sort (Python's `sorted` is
stable).  Dictionary fields that are absent until assigned
(`duration`) or assigned `None` (`end_timestamp` while a round is
open) are `Option` fields.
-/

namespace RoundDetector

/-! ## Decimal digits and a model of Python's `int()` on strings

`parse_timer` calls Python's `int()` on the two halves of the token.
`int()` strips leading/trailing whitespace, accepts one optional sign,
and then a nonempty digit run in which single underscores may appear
between digits.  We model exactly that grammar over ASCII. -/

/-- Numeric value of a decimal digit character. -/
def dval (c : Char) : Nat := c.toNat - 48

/-- Decimal value of a digit list, most significant first. -/
def valD (l : List Char) : Nat := l.foldl (fun a c => a * 10 + dval c) 0

/-- Digit-run scanner for the tail of an integer literal: digits with
single underscores allowed only between digits (`lastU` records
whether the previous character was an underscore). -/
def goDigits (acc : Nat) (lastU : Bool) : List Char → Option Nat
  | [] => if lastU then none else some acc
  | c :: cs =>
    if c.isDigit then goDigits (acc * 10 + dval c) false cs
    else if c = '_' && !lastU then goDigits acc true cs
    else none

/-- Whitespace characters stripped by Python's `int()` (ASCII subset). -/
def isPyWs (c : Char) : Bool :=
  c = ' ' || c = '\t' || c = '\n' || c = '\r' || c = '\x0b' || c = '\x0c'

/-- Strip leading and trailing whitespace. -/
def stripWs (l : List Char) : List Char :=
  ((l.dropWhile isPyWs).reverse.dropWhile isPyWs).reverse

/-- Unsigned digit run (first character must be a digit). -/
def digitRun : List Char → Option Nat
  | [] => none
  | c :: cs => if c.isDigit then goDigits (dval c) false cs else none

/-- Model of Python's `int(s)` on a character list: optional
whitespace, optional sign, nonempty digit run. -/
def pyIntChars (l : List Char) : Option Int :=
  match stripWs l with
  | [] => none
  | c :: rest =>
    if c = '+' then (digitRun rest).map (fun n => (n : Int))
    else if c = '-' then (digitRun rest).map (fun n => -(n : Int))
    else (digitRun (c :: rest)).map (fun n => (n : Int))

/-- Split a character list on every colon (Python `str.split(':')`). -/
def splitOnColon : List Char → List (List Char)
  | [] => [[]]
  | c :: cs =>
    if c = ':' then [] :: splitOnColon cs
    else
      match splitOnColon cs with
      | p :: ps => (c :: p) :: ps
      | [] => [[c]]

/-- `RoundDetector.parse_timer`: convert a timer token `M:SS` to total
seconds; `None`/empty/malformed input yields `none` (the Python code
catches `ValueError` from `int()`). -/
def parse_timer (timer_str : Option String) : Option Int :=
  match timer_str with
  | none => none
  | some s =>
    if s = "" then none
    else
      match splitOnColon s.toList with
      | [p0, p1] =>
        match pyIntChars p0, pyIntChars p1 with
        | some minutes, some seconds => some (minutes * 60 + seconds)
        | _, _ => none
      | _ => none

/-! ## Formatting (`seconds_to_fmt`) -/

/-- Decimal digit character for a value in 0..9. -/
def digitChar (d : Nat) : Char :=
  match d with
  | 0 => '0' | 1 => '1' | 2 => '2' | 3 => '3' | 4 => '4'
  | 5 => '5' | 6 => '6' | 7 => '7' | 8 => '8' | _ => '9'

/-- Fuel-driven decimal rendering of a natural number (the fuel makes
the recursion structural so that the kernel can evaluate it; `fuel = n`
always suffices). -/
def natDigitsAux : Nat → Nat → List Char → List Char
  | 0, n, acc => digitChar (n % 10) :: acc
  | fuel + 1, n, acc =>
    if n < 10 then digitChar n :: acc
    else natDigitsAux fuel (n / 10) (digitChar (n % 10) :: acc)

/-- Decimal digits of a natural number, most significant first. -/
def natDigits (n : Nat) : List Char := natDigitsAux n n []

/-- Decimal rendering of an integer (Python `str(i)` for an `int`). -/
def intRender (i : Int) : List Char :=
  if i < 0 then '-' :: natDigits (-i).toNat else natDigits i.toNat

/-- Python `f-string` formatting `{s:02d}`: zero-pad to width 2. -/
def pad2 (i : Int) : List Char :=
  if 0 ≤ i ∧ i < 10 then '0' :: natDigits i.toNat else intRender i

/-- `RoundDetector.seconds_to_fmt`: convert total seconds to an `M:SS`
string.  Python's `//` and `%` on numbers are floor division and
nonnegative-for-positive-divisor modulus, i.e. `Int.fdiv`/`Int.emod`.
The `s == 60` carry branch exists for fractional input in Python; on
integers it is dead (kept for faithfulness). -/
def seconds_to_fmt (seconds : Int) : String :=
  let m := Int.fdiv seconds 60
  let s := Int.emod seconds 60
  let m := if s = 60 then m + 1 else m
  let s := if s = 60 then 0 else s
  ⟨intRender m ++ ':' :: pad2 s⟩

/-! ## Engine constants and helpers -/

/-- Timer values that indicate a round start. -/
def ROUND_START_TIMES : List String :=
  ["1:40", "1:39", "1:38", "1:37", "1:36", "1:35", "1:34", "1:33",
   "1:32", "1:31", "1:30"]

/-- Max duration after spike plant. -/
def SPIKE_TIMEOUT_SECONDS : Int := 35

/-- Cut the previous round this many seconds before the next starts. -/
def ROUND_END_BUFFER_SECONDS : Int := 10

/-- Standard round duration: 1:40 is 100 seconds. -/
def STANDARD_ROUND_DURATION_SECONDS : Int := 100

/-- Consecutive "nothing" readings required to confirm round end. -/
def ROUND_END_NOTHING_THRESHOLD : Nat := 2

/-- `RoundDetector.is_round_start_timer` (`if not timer_str` also
rejects the empty string, which Python treats as falsy). -/
def is_round_start_timer (timer_str : Option String) : Bool :=
  match timer_str with
  | none => false
  | some s => if s = "" then false else ROUND_START_TIMES.contains s

/-- `RoundDetector.calculate_round_start_timestamp`: project the
observed sample back to the moment the clock read 1:40, clamping the
elapsed term to zero. -/
def calculate_round_start_timestamp (observed_timestamp : Int)
    (timer_str : Option String) : Int :=
  match parse_timer timer_str with
  | none => observed_timestamp
  | some timer_seconds =>
    observed_timestamp - max 0 (STANDARD_ROUND_DURATION_SECONDS - timer_seconds)

/-! ## Data model -/

/-- The `timer_value` field of a reading: either a plain token (or
`None`), or a composite dict carrying a token and the red-triangle
visual cue. -/
inductive TimerValue where
  | plain : Option String → TimerValue
  | composite : Option String → Bool → TimerValue
deriving DecidableEq

/-- Token and visual-cue extraction (lines 126–131 of the source). -/
def extractTimer : TimerValue → Option String × Bool
  | .plain s => (s, false)
  | .composite t cue => (t, cue)

/-- One timestamped timer reading. -/
structure Reading where
  timestamp : Int
  timer_value : TimerValue
deriving DecidableEq

/-- A detected round.  Fields that Python sets to `None` while the
round is open, and the `duration` key that is absent until the final
pass assigns it, are `Option`-valued. -/
structure Round where
  round_number : Nat
  start_timestamp : Int
  start_time_fmt : Option String
  observed_start_timestamp : Int
  start_timer : Option String
  end_timestamp : Option Int
  end_time_fmt : Option String
  end_reason : Option String
  spike_planted : Bool
  spike_plant_timestamp : Option Int
  duration : Option Int
deriving DecidableEq

/-- The four pieces of sweep state of `detect_rounds`, plus the
accumulated closed rounds. -/
structure SweepState where
  rounds : List Round
  current_round : Option Round
  spike_plant_time : Option Int
  consecutive_nothings : Nat
  first_nothing_timestamp : Option Int
deriving DecidableEq

/-- Sweep state at loop entry. -/
def initState : SweepState :=
  { rounds := [], current_round := none, spike_plant_time := none,
    consecutive_nothings := 0, first_nothing_timestamp := none }

/-! ## The sweep, phase by phase (loop body of `detect_rounds`) -/

/-- Replay-artifact suppression (source lines 135–141): a non-"nothing"
token that parses into [31, 89] seconds while a "nothing" run is in
progress is treated as "nothing". -/
def applyReplaySuppression (consecutive_nothings : Nat)
    (timer_str : Option String) : Option String :=
  if 0 < consecutive_nothings ∧ timer_str ≠ some "nothing" then
    match parse_timer timer_str with
    | some t_secs => if 31 ≤ t_secs ∧ t_secs ≤ 89 then some "nothing" else timer_str
    | none => timer_str
  else timer_str

/-- Handling of a (possibly reinterpreted) "nothing" token (source
lines 143–158): track the run, and close the open round at the run's
first timestamp once the threshold is reached; all later per-reading
processing is skipped (`continue`). -/
def handleNothing (timestamp : Int) (st : SweepState) : SweepState :=
  let first := if st.consecutive_nothings = 0 then some timestamp
               else st.first_nothing_timestamp
  let count := st.consecutive_nothings + 1
  match st.current_round with
  | some cr =>
    if ROUND_END_NOTHING_THRESHOLD ≤ count then
      { rounds := st.rounds ++
          [{ cr with end_timestamp := first,
                     end_time_fmt := first.map seconds_to_fmt,
                     end_reason := some "timer_disappeared" }],
        current_round := none, spike_plant_time := none,
        consecutive_nothings := count, first_nothing_timestamp := first }
    else
      { st with consecutive_nothings := count, first_nothing_timestamp := first }
  | none =>
    { st with consecutive_nothings := count, first_nothing_timestamp := first }

/-- Round-start detection (source lines 166–198): close any open round
10 seconds before the new refined start (never before its own start)
and open the new round. -/
def handleRoundStart (timestamp : Int) (timer_str : Option String)
    (st : SweepState) : SweepState :=
  if is_round_start_timer timer_str then
    let refined_start_time := calculate_round_start_timestamp timestamp timer_str
    let rounds' :=
      match st.current_round with
      | some cr =>
        let end_time := max cr.start_timestamp
            (refined_start_time - ROUND_END_BUFFER_SECONDS)
        st.rounds ++
          [{ cr with end_timestamp := some end_time,
                     end_time_fmt := some (seconds_to_fmt end_time),
                     end_reason := some "next_round_started" }]
      | none => st.rounds
    { rounds := rounds',
      current_round := some
        { round_number := rounds'.length + 1,
          start_timestamp := refined_start_time,
          start_time_fmt := some (seconds_to_fmt refined_start_time),
          observed_start_timestamp := timestamp,
          start_timer := timer_str,
          end_timestamp := none, end_time_fmt := none, end_reason := none,
          spike_planted := false, spike_plant_timestamp := none,
          duration := none },
      spike_plant_time := none,
      consecutive_nothings := st.consecutive_nothings,
      first_nothing_timestamp := st.first_nothing_timestamp }
  else st

/-- Spike-plant detection (source lines 200–207). -/
def handleSpikePlant (timestamp : Int) (timer_str : Option String)
    (has_red_triangle : Bool) (st : SweepState) : SweepState :=
  let is_spike_text := timer_str = some "spike planted"
  match st.current_round with
  | some cr =>
    if (has_red_triangle || is_spike_text) && !cr.spike_planted then
      { st with
        current_round := some
          { cr with spike_planted := true,
                    spike_plant_timestamp := some timestamp },
        spike_plant_time := some timestamp }
    else st
  | none => st

/-- Spike-timeout closure (source lines 209–220): 35 seconds after the
plant, close the round at the current reading's timestamp.  The guard
`if current_round and spike_plant_time:` uses Python truthiness, so a
plant timestamp of exactly 0 (falsy) disables the timeout check. -/
def handleSpikeTimeout (timestamp : Int) (st : SweepState) : SweepState :=
  match st.current_round, st.spike_plant_time with
  | some cr, some plant =>
    if plant = 0 then st
    else if SPIKE_TIMEOUT_SECONDS ≤ timestamp - plant then
      { st with
        rounds := st.rounds ++
          [{ cr with end_timestamp := some timestamp,
                     end_time_fmt := some (seconds_to_fmt timestamp),
                     end_reason := some "spike_timeout" }],
        current_round := none, spike_plant_time := none }
    else st
  | _, _ => st

/-- One iteration of the sweep loop over a single reading. -/
def processReading (st : SweepState) (reading : Reading) : SweepState :=
  let timestamp := reading.timestamp
  let tv := extractTimer reading.timer_value
  let timer_str := applyReplaySuppression st.consecutive_nothings tv.1
  if timer_str = some "nothing" then
    handleNothing timestamp st
  else
    let st1 := { st with consecutive_nothings := 0,
                         first_nothing_timestamp := none }
    let st2 := handleRoundStart timestamp timer_str st1
    let st3 := handleSpikePlant timestamp timer_str tv.2 st2
    handleSpikeTimeout timestamp st3

/-! ## The full sweep (`detect_rounds`) -/

/-- The initial sort by timestamp (Python's `sorted` with a key is a
stable sort; so is insertion sort on a non-strict order). -/
def sortReadings (timer_readings : List Reading) : List Reading :=
  List.insertionSort (fun a b => a.timestamp ≤ b.timestamp) timer_readings

/-- After the sweep, close any remaining round at the last reading's
timestamp (source lines 222–229). -/
def closeFinal (st : SweepState) (sorted_readings : List Reading) : List Round :=
  match st.current_round with
  | some cr =>
    let last_timestamp := (sorted_readings.getLast?).map Reading.timestamp
    st.rounds ++
      [{ cr with end_timestamp := last_timestamp,
                 end_time_fmt := (last_timestamp.map seconds_to_fmt),
                 end_reason := some "vod_ended" }]
  | none => st.rounds

/-- The final duration pass (source lines 231–234): Python's truthiness
test `if round_data['end_timestamp']:` skips both `None` and `0`. -/
def computeDuration (r : Round) : Round :=
  match r.end_timestamp with
  | none => r
  | some e =>
    if e = 0 then r
    else { r with duration := some (e - r.start_timestamp) }

/-- `RoundDetector.detect_rounds`: sort, sweep, close the last round,
compute durations. -/
def detect_rounds (timer_readings : List Reading) : List Round :=
  let sorted_readings := sortReadings timer_readings
  let final := sorted_readings.foldl processReading initState
  (closeFinal final sorted_readings).map computeDuration

/-! ## Claim theorems: evaluation-based results -/

/-- C1 (counterexample): on the spike-timeout scenario the engine does
return one round with `spike_planted = true` at `t = 20` and
`end_reason = "spike_timeout"`, but it closes at `end_timestamp = 60`
(the timestamp of the reading at which the timeout was observed), not
at `55 = 20 + 35` as the claim states. -/
theorem C1_counterexample :
    (detect_rounds
        [⟨0, .plain (some "1:40")⟩, ⟨10, .plain (some "0:50")⟩,
         ⟨20, .composite (some "0:30") true⟩, ⟨60, .plain (some "0:10")⟩]).map
      (fun r => (r.end_timestamp, r.end_reason, r.spike_planted,
                 r.spike_plant_timestamp))
      = [(some 60, some "spike_timeout", true, some 20)] ∧
    (some (60 : Int)) ≠ (some (55 : Int)) := by
  exact ⟨by decide, by decide⟩

/-- C1 (amended): for the input reading list
`[(0,"1:40"), (10,"0:50"), (20, token "0:30" with visual_cue = true),
(60,"0:10")]`, `detect_rounds` returns exactly one round with
`spike_planted = true` and `spike_plant_timestamp = 20`, closed with
`end_reason = "spike_timeout"` and `end_timestamp = 60` — the
timestamp of the first reading at which at least 35 seconds have
elapsed since the plant — regardless of the value of the later
reading at 60. -/
theorem C1_amended :
    detect_rounds
        [⟨0, .plain (some "1:40")⟩, ⟨10, .plain (some "0:50")⟩,
         ⟨20, .composite (some "0:30") true⟩, ⟨60, .plain (some "0:10")⟩]
      = [{ round_number := 1, start_timestamp := 0,
           start_time_fmt := some "0:00", observed_start_timestamp := 0,
           start_timer := some "1:40", end_timestamp := some 60,
           end_time_fmt := some "1:00", end_reason := some "spike_timeout",
           spike_planted := true, spike_plant_timestamp := some 20,
           duration := some 60 }] := by
  decide

/-- C2 (code bug): on the single reading `(0, "1:40")` the returned
round has `end_timestamp = 0 ≥ start_timestamp = 0`, yet carries no
`duration` value: the final pass guards with Python truthiness
(`if round_data['end_timestamp']:`), which is false at `0`, so the
claimed `duration = end_timestamp - start_timestamp` is never
assigned for rounds closed at timestamp `0`. -/
theorem C2_code_bug :
    (detect_rounds [⟨0, .plain (some "1:40")⟩]).map
      (fun r => (r.start_timestamp, r.end_timestamp, r.end_reason, r.duration))
      = [(0, some 0, some "vod_ended", none)] := by
  decide

/-- C3 (counterexample): the two-element lists
`[(5,"1:39"), (5,"1:40")]` and `[(5,"1:40"), (5,"1:39")]` are
permutations of each other (the same multiset of readings, with equal
timestamps), yet `detect_rounds` returns different round lists for
them — the stable sort preserves the arrival order of readings with
tied timestamps, so arrival order leaks into the output. -/
theorem C3_counterexample :
    List.Perm [(⟨5, .plain (some "1:39")⟩ : Reading), ⟨5, .plain (some "1:40")⟩]
      [⟨5, .plain (some "1:40")⟩, ⟨5, .plain (some "1:39")⟩] ∧
    detect_rounds [⟨5, .plain (some "1:39")⟩, ⟨5, .plain (some "1:40")⟩]
      ≠ detect_rounds [⟨5, .plain (some "1:40")⟩, ⟨5, .plain (some "1:39")⟩] := by
  exact ⟨by decide, by decide⟩

/-- C4 (counterexample): `parse_timer "1:5"` — a one-digit seconds
component — returns `65`, not null: Python's `int()` does not require
two digits, so the claim's "exactly the canonical two-digit shape" is
false on the code. -/
theorem C4_counterexample :
    parse_timer (some "1:5") = some 65 ∧ parse_timer (some "1:5") ≠ none := by
  exact ⟨by decide, by decide⟩

/-- C5 (counterexample): on `[(5,"1:40"), (5,"1:30")]` the first
round's `start_timestamp` (5) does not strictly precede the second
round's `observed_start_timestamp` (also 5), and the returned rounds
(starts 5 then −5) are not in chronological order by
`start_timestamp`. -/
theorem C5_counterexample :
    ¬ List.Chain' (fun a b => a.start_timestamp < b.observed_start_timestamp)
        (detect_rounds [⟨5, .plain (some "1:40")⟩, ⟨5, .plain (some "1:30")⟩]) ∧
    ¬ List.Chain' (fun a b => a.start_timestamp ≤ b.start_timestamp)
        (detect_rounds [⟨5, .plain (some "1:40")⟩, ⟨5, .plain (some "1:30")⟩]) := by
  have h : detect_rounds [⟨5, .plain (some "1:40")⟩, ⟨5, .plain (some "1:30")⟩]
      = [{ round_number := 1, start_timestamp := 5,
           start_time_fmt := some "0:05", observed_start_timestamp := 5,
           start_timer := some "1:40", end_timestamp := some 5,
           end_time_fmt := some "0:05", end_reason := some "next_round_started",
           spike_planted := false, spike_plant_timestamp := none,
           duration := some 0 },
         { round_number := 2, start_timestamp := -5,
           start_time_fmt := some "-1:55", observed_start_timestamp := 5,
           start_timer := some "1:30", end_timestamp := some 5,
           end_time_fmt := some "0:05", end_reason := some "vod_ended",
           spike_planted := false, spike_plant_timestamp := none,
           duration := some 10 }] := by decide
  rw [h]
  constructor
  · intro hc
    rcases (List.chain'_cons).mp hc with ⟨hlt, _⟩
    simp at hlt
  · intro hc
    rcases (List.chain'_cons).mp hc with ⟨hle, _⟩
    simp at hle

/-- C10: the engine can return a round with a negative
`start_timestamp`: the clamp in start-time refinement applies only to
the elapsed term, never to the refined result, so the single reading
`(2, "1:30")` yields a round with `start_timestamp = -8` and
`start_time_fmt = "-1:52"`. -/
theorem C10_negative_start :
    detect_rounds [⟨2, .plain (some "1:30")⟩]
      = [{ round_number := 1, start_timestamp := -8,
           start_time_fmt := some "-1:52", observed_start_timestamp := 2,
           start_timer := some "1:30", end_timestamp := some 2,
           end_time_fmt := some "0:02", end_reason := some "vod_ended",
           spike_planted := false, spike_plant_timestamp := none,
           duration := some 10 }] := by
  decide

/-- A literal "nothing" token is never changed by replay suppression. -/
theorem applyReplaySuppression_nothing_tok (c : Nat) :
    applyReplaySuppression c (some "nothing") = some "nothing" := by
  unfold applyReplaySuppression
  rw [if_neg]
  simp

/-- C8: a reading's token is reinterpreted as "nothing" iff a
"nothing" run is in progress (counter > 0), the token is not
"nothing", and it parses to a value in [31, 89]; tokens outside that
window or that do not parse are never reinterpreted; and on the
replay-suppression scenario the suppressed "1:05" reading does not
reopen the round, which closes with end_reason "timer_disappeared" at
end_timestamp 50. -/
theorem C8_replay_suppression :
    (∀ (c : Nat) (ts : Option String) (v : Int),
        0 < c → ts ≠ some "nothing" → parse_timer ts = some v →
        31 ≤ v → v ≤ 89 →
        applyReplaySuppression c ts = some "nothing") ∧
    (∀ (c : Nat) (ts : Option String),
        applyReplaySuppression c ts ≠ ts →
        0 < c ∧ ts ≠ some "nothing" ∧
          applyReplaySuppression c ts = some "nothing" ∧
          ∃ v, parse_timer ts = some v ∧ 31 ≤ v ∧ v ≤ 89) ∧
    (detect_rounds
        [⟨0, .plain (some "1:40")⟩, ⟨50, .plain (some "nothing")⟩,
         ⟨55, .plain (some "nothing")⟩, ⟨58, .plain (some "1:05")⟩,
         ⟨70, .plain (some "nothing")⟩]).map
      (fun r => (r.end_reason, r.end_timestamp)) =
      [(some "timer_disappeared", some 50)] := by
  refine ⟨?_, ?_, by decide⟩
  · intro c ts v hc hne hp h31 h89
    unfold applyReplaySuppression
    rw [if_pos ⟨hc, hne⟩, hp]
    exact if_pos ⟨h31, h89⟩
  · intro c ts hdiff
    unfold applyReplaySuppression at hdiff ⊢
    by_cases h : 0 < c ∧ ts ≠ some "nothing"
    · rw [if_pos h] at hdiff ⊢
      cases hp : parse_timer ts with
      | none =>
        rw [hp] at hdiff
        exact absurd rfl hdiff
      | some v =>
        rw [hp] at hdiff
        by_cases hw : 31 ≤ v ∧ v ≤ 89
        · exact ⟨h.1, h.2, if_pos hw, v, rfl, hw.1, hw.2⟩
        · exact absurd (if_neg hw) hdiff
    · rw [if_neg h] at hdiff
      exact absurd rfl hdiff

/-- C8 witness: the general suppression rule applied at counter 1 and
token "1:05" (65 seconds, inside the window). -/
theorem C8_witness :
    ((0 : Nat) < 1 ∧ (some "1:05" : Option String) ≠ some "nothing" ∧
      parse_timer (some "1:05") = some 65 ∧ (31 : Int) ≤ 65 ∧ (65 : Int) ≤ 89) ∧
    applyReplaySuppression 1 (some "1:05") = some "nothing" := by
  exact ⟨by decide,
    C8_replay_suppression.1 1 (some "1:05") 65 (by decide) (by decide)
      (by decide) (by decide) (by decide)⟩

/-- C7: while a round is open, the second consecutive "nothing"
reading (threshold 2) closes it with end_timestamp equal to the first
"nothing" timestamp of the run and end_reason "timer_disappeared"; no
round-start or spike processing runs on a "nothing" reading (the open
round is either returned untouched or closed, never replaced or
mutated); and the clean-round scenario returns the single round
(start_timer "1:39", start 9, timer_disappeared at 110). -/
theorem C7_nothing_close :
    (∀ (st : SweepState) (cr : Round) (f T : Int) (tv : TimerValue),
        st.current_round = some cr →
        st.consecutive_nothings = 1 →
        st.first_nothing_timestamp = some f →
        (extractTimer tv).1 = some "nothing" →
        processReading st ⟨T, tv⟩ =
          { rounds := st.rounds ++
              [{ cr with end_timestamp := some f,
                         end_time_fmt := some (seconds_to_fmt f),
                         end_reason := some "timer_disappeared" }],
            current_round := none, spike_plant_time := none,
            consecutive_nothings := 2, first_nothing_timestamp := some f }) ∧
    (∀ (st : SweepState) (T : Int) (tv : TimerValue),
        (extractTimer tv).1 = some "nothing" →
        (processReading st ⟨T, tv⟩).current_round = st.current_round ∨
        (processReading st ⟨T, tv⟩).current_round = none) ∧
    (detect_rounds
        [⟨0, .plain (some "nothing")⟩, ⟨10, .plain (some "1:39")⟩,
         ⟨50, .plain (some "0:50")⟩, ⟨110, .plain (some "nothing")⟩,
         ⟨120, .plain (some "nothing")⟩]).map
      (fun r => (r.start_timer, r.start_timestamp, r.end_reason, r.end_timestamp)) =
      [(some "1:39", 9, some "timer_disappeared", some 110)] := by
  refine ⟨?_, ?_, by decide⟩
  · intro st cr f T tv hcur hcn hf htv
    unfold processReading
    simp only [htv, applyReplaySuppression_nothing_tok, if_pos]
    unfold handleNothing
    rw [hcn, hcur, hf]
    simp [ROUND_END_NOTHING_THRESHOLD]
  · intro st T tv htv
    unfold processReading
    simp only [htv, applyReplaySuppression_nothing_tok, if_pos]
    cases hc : st.current_round with
    | none =>
      right
      simp [handleNothing, hc]
    | some cr =>
      by_cases ht : ROUND_END_NOTHING_THRESHOLD ≤ st.consecutive_nothings + 1
      · right
        simp [handleNothing, hc, ht]
      · left
        simp [handleNothing, hc, ht]

/-- Each round-start token parses into the 90–100 band and passes the
round-start test; none of them is a sentinel. -/
theorem roundstart_token_facts :
    ∀ tok ∈ ROUND_START_TIMES, ∃ v : Int,
      parse_timer (some tok) = some v ∧ 90 ≤ v ∧ v ≤ 100 ∧
      tok ≠ "nothing" ∧ tok ≠ "spike planted" ∧
      is_round_start_timer (some tok) = true := by
  intro tok htok
  simp only [ROUND_START_TIMES, List.mem_cons, List.not_mem_nil, or_false] at htok
  rcases htok with rfl | rfl | rfl | rfl | rfl | rfl | rfl | rfl | rfl | rfl | rfl
  · exact ⟨100, by decide⟩
  · exact ⟨99, by decide⟩
  · exact ⟨98, by decide⟩
  · exact ⟨97, by decide⟩
  · exact ⟨96, by decide⟩
  · exact ⟨95, by decide⟩
  · exact ⟨94, by decide⟩
  · exact ⟨93, by decide⟩
  · exact ⟨92, by decide⟩
  · exact ⟨91, by decide⟩
  · exact ⟨90, by decide⟩

/-- A token that parses outside the [31, 89] window is never changed
by replay suppression. -/
theorem applyReplaySuppression_outside (c : Nat) (ts : Option String) (v : Int)
    (hp : parse_timer ts = some v) (hv : ¬(31 ≤ v ∧ v ≤ 89)) :
    applyReplaySuppression c ts = ts := by
  unfold applyReplaySuppression
  split
  · rw [hp]
    exact if_neg hv
  · rfl

/-- C6: when a reading whose token is in the round-start set
{"1:40".."1:30"} is processed while a round is open, the open round is
closed with end_timestamp = max(its own start_timestamp,
refined_start - 10) and end_reason "next_round_started", and the new
round opens with start_timestamp = timestamp - max(0, 100 -
parse(token)) and observed_start_timestamp = timestamp; on
[(0,"1:40"),(100,"1:39")] the first round closes at 89 and the second
opens with start_timestamp 99. -/
theorem C6_round_start :
    (∀ (st : SweepState) (cr : Round) (T : Int) (tok : String) (cue : Bool),
        st.current_round = some cr →
        tok ∈ ROUND_START_TIMES →
        ∃ v, parse_timer (some tok) = some v ∧
          (processReading st ⟨T, .composite (some tok) cue⟩).rounds =
            st.rounds ++
              [{ cr with
                  end_timestamp :=
                    some (max cr.start_timestamp (T - max 0 (100 - v) - 10)),
                  end_time_fmt :=
                    some (seconds_to_fmt
                      (max cr.start_timestamp (T - max 0 (100 - v) - 10))),
                  end_reason := some "next_round_started" }] ∧
          ∃ nr, (processReading st ⟨T, .composite (some tok) cue⟩).current_round
                  = some nr ∧
            nr.start_timestamp = T - max 0 (100 - v) ∧
            nr.observed_start_timestamp = T ∧
            nr.start_timer = some tok) ∧
    (detect_rounds [⟨0, .plain (some "1:40")⟩, ⟨100, .plain (some "1:39")⟩]).map
        (fun r => (r.start_timestamp, r.observed_start_timestamp,
                   r.end_timestamp, r.end_reason)) =
      [(0, 0, some 89, some "next_round_started"),
       (99, 100, some 100, some "vod_ended")] := by
  refine ⟨?_, by decide⟩
  intro st cr T tok cue hcur htok
  obtain ⟨v, hp, h90, h100, hnn, hns, hstart⟩ := roundstart_token_facts tok htok
  refine ⟨v, hp, ?_⟩
  unfold processReading
  simp only [extractTimer]
  rw [applyReplaySuppression_outside _ _ v hp (by omega)]
  rw [if_neg (by simp [hnn])]
  unfold handleRoundStart
  rw [hstart]
  simp only [if_true]
  unfold calculate_round_start_timestamp
  rw [hp]
  simp only [STANDARD_ROUND_DURATION_SECONDS, ROUND_END_BUFFER_SECONDS]
  simp only [hcur]
  cases cue with
  | false =>
    simp [handleSpikePlant, handleSpikeTimeout, hns]
  | true =>
    simp [handleSpikePlant, handleSpikeTimeout, hns, SPIKE_TIMEOUT_SECONDS]

/-- Concrete open round used to witness C6 (the state after the
reading `(0, "1:40")`). -/
def c6Round : Round :=
  { round_number := 1, start_timestamp := 0, start_time_fmt := some "0:00",
    observed_start_timestamp := 0, start_timer := some "1:40",
    end_timestamp := none, end_time_fmt := none, end_reason := none,
    spike_planted := false, spike_plant_timestamp := none, duration := none }

/-- Concrete sweep state used to witness C6. -/
def c6State : SweepState :=
  { rounds := [], current_round := some c6Round, spike_plant_time := none,
    consecutive_nothings := 0, first_nothing_timestamp := none }

/-- C6 witness: the round-start rule applied at the concrete state
holding one open round (started by "1:40" at 0) and the reading
(100, "1:39"). -/
theorem C6_witness :
    ("1:39" ∈ ROUND_START_TIMES) ∧
    ∃ v, parse_timer (some "1:39") = some v ∧
      (processReading c6State ⟨100, .composite (some "1:39") false⟩).rounds =
        c6State.rounds ++
          [{ c6Round with
              end_timestamp :=
                some (max c6Round.start_timestamp (100 - max 0 (100 - v) - 10)),
              end_time_fmt :=
                some (seconds_to_fmt
                  (max c6Round.start_timestamp (100 - max 0 (100 - v) - 10))),
              end_reason := some "next_round_started" }] ∧
      ∃ nr, (processReading c6State
              ⟨100, .composite (some "1:39") false⟩).current_round = some nr ∧
        nr.start_timestamp = 100 - max 0 (100 - v) ∧
        nr.observed_start_timestamp = 100 ∧
        nr.start_timer = some "1:39" := by
  exact ⟨by decide,
    C6_round_start.1 c6State c6Round 100 "1:39" false rfl (by decide)⟩

/-- Concrete open round used to witness C7 (the round opened by the
reading `(10, "1:39")` of the clean-round scenario). -/
def c7Round : Round :=
  { round_number := 1, start_timestamp := 9, start_time_fmt := some "0:09",
    observed_start_timestamp := 10, start_timer := some "1:39",
    end_timestamp := none, end_time_fmt := none, end_reason := none,
    spike_planted := false, spike_plant_timestamp := none, duration := none }

/-- Concrete sweep state used to witness C7: one open round and a
"nothing" run of length 1 that began at timestamp 110. -/
def c7State : SweepState :=
  { rounds := [], current_round := some c7Round, spike_plant_time := none,
    consecutive_nothings := 1, first_nothing_timestamp := some 110 }

/-- C7 witness: the second consecutive "nothing" reading (at 120)
closes the open round at the run's first timestamp, 110. -/
theorem C7_witness :
    processReading c7State ⟨120, .plain (some "nothing")⟩ =
      { rounds := c7State.rounds ++
          [{ c7Round with end_timestamp := some 110,
                          end_time_fmt := some (seconds_to_fmt 110),
                          end_reason := some "timer_disappeared" }],
        current_round := none, spike_plant_time := none,
        consecutive_nothings := 2, first_nothing_timestamp := some 110 } :=
  C7_nothing_close.1 c7State c7Round 110 120 (.plain (some "nothing")) rfl rfl rfl rfl

theorem splitOnColon_ne_nil (l : List Char) : splitOnColon l ≠ [] := by
  cases l with
  | nil => simp [splitOnColon]
  | cons c cs =>
    simp only [splitOnColon]
    by_cases h : c = ':'
    · simp [h]
    · rw [if_neg h]
      cases hs : splitOnColon cs with
      | nil => simp
      | cons p ps => simp

theorem splitOnColon_of_not_mem (l : List Char) (h : ':' ∉ l) :
    splitOnColon l = [l] := by
  induction l with
  | nil => rfl
  | cons c cs ih =>
    simp only [List.mem_cons, not_or] at h
    simp only [splitOnColon]
    rw [if_neg (fun he => h.1 he.symm), ih h.2]

theorem splitOnColon_append (a b : List Char) (h : ':' ∉ a) :
    splitOnColon (a ++ ':' :: b) = a :: splitOnColon b := by
  induction a with
  | nil => simp [splitOnColon]
  | cons c cs ih =>
    simp only [List.mem_cons, not_or] at h
    simp only [List.cons_append, splitOnColon, List.append_eq]
    rw [if_neg (fun he => h.1 he.symm), ih h.2]

theorem goDigits_all_digits (l : List Char) :
    ∀ acc : Nat, (∀ c ∈ l, c.isDigit) →
      goDigits acc false l = some (l.foldl (fun a c => a * 10 + dval c) acc) := by
  induction l with
  | nil => intro acc _; rfl
  | cons c cs ih =>
    intro acc h
    simp only [goDigits, List.foldl_cons]
    rw [if_pos (h c (by simp)), ih _ (fun x hx => h x (by simp [hx]))]

theorem valD_cons (c : Char) (cs : List Char) :
    valD (c :: cs) = cs.foldl (fun a x => a * 10 + dval x) (dval c) := by
  simp [valD]

theorem digitRun_all_digits (l : List Char) (hne : l ≠ [])
    (h : ∀ c ∈ l, c.isDigit) : digitRun l = some (valD l) := by
  cases l with
  | nil => exact absurd rfl hne
  | cons c cs =>
    simp only [digitRun]
    rw [if_pos (h c (by simp)),
      goDigits_all_digits cs (dval c) (fun x hx => h x (by simp [hx])), valD_cons]

theorem isDigit_not_pyWs (c : Char) (h : c.isDigit = true) : isPyWs c = false := by
  by_contra hw
  simp only [Bool.not_eq_false, isPyWs, Bool.or_eq_true, decide_eq_true_eq] at hw
  rcases hw with ((((rfl | rfl) | rfl) | rfl) | rfl) | rfl <;> simp at h

theorem dropWhile_head_false {p : Char → Bool} (l : List Char)
    (h : ∀ c ∈ l.head?, p c = false) : l.dropWhile p = l := by
  cases l with
  | nil => rfl
  | cons c cs =>
    simp only [List.head?_cons, Option.mem_def, Option.some.injEq] at h
    simp [List.dropWhile_cons, h c rfl]

theorem stripWs_of_digits (l : List Char) (h : ∀ c ∈ l, c.isDigit) :
    stripWs l = l := by
  unfold stripWs
  rw [dropWhile_head_false l
      (fun c hc => isDigit_not_pyWs c (h c (List.mem_of_mem_head? hc))),
    dropWhile_head_false l.reverse
      (fun c hc => isDigit_not_pyWs c
        (h c (List.mem_reverse.mp (List.mem_of_mem_head? hc)))),
    List.reverse_reverse]

theorem isDigit_ne (c x : Char) (h : c.isDigit = true) (hx : x.isDigit = false) :
    c ≠ x := by
  intro he
  rw [he, hx] at h
  exact absurd h (by simp)

theorem pyIntChars_digits (l : List Char) (hne : l ≠ [])
    (h : ∀ c ∈ l, c.isDigit) : pyIntChars l = some ((valD l : Int)) := by
  cases l with
  | nil => exact absurd rfl hne
  | cons c cs =>
    have hc := h c (by simp)
    have hsw := stripWs_of_digits (c :: cs) h
    simp only [pyIntChars, hsw]
    rw [if_neg (isDigit_ne c '+' hc (by decide)),
      if_neg (isDigit_ne c '-' hc (by decide)),
      digitRun_all_digits (c :: cs) (by simp) h]
    rfl

theorem parse_digit_pair (a b : List Char) (ha : a ≠ []) (hb : b ≠ [])
    (hda : ∀ c ∈ a, c.isDigit) (hdb : ∀ c ∈ b, c.isDigit) :
    parse_timer (some ⟨a ++ ':' :: b⟩) =
      some ((valD a : Int) * 60 + (valD b : Int)) := by
  have hca : ':' ∉ a := fun hm => by
    have := hda ':' hm
    simp at this
  have hcb : ':' ∉ b := fun hm => by
    have := hdb ':' hm
    simp at this
  have hne : (⟨a ++ ':' :: b⟩ : String) ≠ "" := by
    cases a <;> simp [String.ext_iff]
  simp only [parse_timer]
  rw [if_neg hne,
    show (String.toList ⟨a ++ ':' :: b⟩) = a ++ ':' :: b from rfl,
    splitOnColon_append a b hca, splitOnColon_of_not_mem b hcb]
  simp only [pyIntChars_digits a ha hda, pyIntChars_digits b hb hdb]

theorem splitOnColon_length (l : List Char) :
    (splitOnColon l).length = l.count ':' + 1 := by
  induction l with
  | nil => simp [splitOnColon]
  | cons c cs ih =>
    simp only [splitOnColon]
    by_cases h : c = ':'
    · subst h
      simp [ih]
    · rw [if_neg h]
      cases hs : splitOnColon cs with
      | nil => exact absurd hs (splitOnColon_ne_nil cs)
      | cons p ps =>
        rw [hs] at ih
        simp only [List.length_cons] at ih ⊢
        rw [List.count_cons]
        simp only [beq_iff_eq]
        rw [if_neg (fun he => h he)]
        omega

/-- C4 (amended): parse_timer returns an integer exactly for tokens
splitting on a single colon into two integer-parseable components —
including one-digit and multi-digit seconds components; null, the
sentinels, colonless strings and multi-colon strings return null. -/
theorem C4_amended :
    parse_timer none = none ∧
    parse_timer (some "nothing") = none ∧
    parse_timer (some "spike planted") = none ∧
    (∀ (a b : List Char), a ≠ [] → b ≠ [] →
        (∀ c ∈ a, c.isDigit) → (∀ c ∈ b, c.isDigit) →
        parse_timer (some ⟨a ++ ':' :: b⟩) =
          some ((valD a : Int) * 60 + (valD b : Int))) ∧
    (∀ s : String, ':' ∉ s.toList → parse_timer (some s) = none) ∧
    (∀ s : String, 2 ≤ s.toList.count ':' → parse_timer (some s) = none) := by
  refine ⟨rfl, by decide, by decide, parse_digit_pair, ?_, ?_⟩
  · intro s h
    by_cases he : s = ""
    · simp [parse_timer, he]
    · simp only [parse_timer]
      rw [if_neg he, splitOnColon_of_not_mem s.toList h]
  · intro s h
    by_cases he : s = ""
    · simp [parse_timer, he]
    · simp only [parse_timer]
      rw [if_neg he]
      rcases hsp : splitOnColon s.toList with _ | ⟨x, _ | ⟨y, _ | ⟨z, rest⟩⟩⟩
      · rfl
      · rfl
      · have hl := splitOnColon_length s.toList
        rw [hsp] at hl
        simp only [List.length_nil, List.length_cons] at hl
        omega
      · rfl

/-- C4 witness: the digit-pair rule applied to "1:05". -/
theorem C4_witness :
    (['1'] ≠ ([] : List Char)) ∧ (['0', '5'] ≠ ([] : List Char)) ∧
    (∀ c ∈ ['1'], c.isDigit) ∧ (∀ c ∈ ['0', '5'], c.isDigit) ∧
    parse_timer (some ⟨['1'] ++ ':' :: ['0', '5']⟩) =
      some ((valD ['1'] : Int) * 60 + (valD ['0', '5'] : Int)) := by
  exact ⟨by decide, by decide, by decide, by decide,
    C4_amended.2.2.2.1 ['1'] ['0', '5'] (by decide) (by decide)
      (by decide) (by decide)⟩

/-- Proof-side decimal rendering (well-founded form of `natDigits`). -/
def digitsRec (n : Nat) : List Char :=
  if n < 10 then [digitChar n] else digitsRec (n / 10) ++ [digitChar (n % 10)]
termination_by n
decreasing_by
  simp_wf
  omega

theorem digitChar_isDigit (d : Nat) (h : d < 10) : (digitChar d).isDigit = true := by
  interval_cases d <;> decide

theorem dval_digitChar (d : Nat) (h : d < 10) : dval (digitChar d) = d := by
  interval_cases d <;> decide

theorem valD_concat (l : List Char) (c : Char) :
    valD (l ++ [c]) = valD l * 10 + dval c := by
  simp [valD, List.foldl_append]

theorem digitsRec_spec (n : Nat) :
    (∀ c ∈ digitsRec n, c.isDigit) ∧ digitsRec n ≠ [] ∧ valD (digitsRec n) = n := by
  induction n using Nat.strong_induction_on with
  | _ n ih =>
    by_cases h : n < 10
    · rw [digitsRec, if_pos h]
      refine ⟨?_, by simp, ?_⟩
      · intro c hc
        simp only [List.mem_singleton] at hc
        subst hc
        exact digitChar_isDigit n h
      · simp [valD, dval_digitChar n h]
    · rw [digitsRec, if_neg h]
      obtain ⟨hd, hne, hv⟩ := ih (n / 10) (Nat.div_lt_self (by omega) (by omega))
      refine ⟨?_, by simp, ?_⟩
      · intro c hc
        rcases List.mem_append.mp hc with hc | hc
        · exact hd c hc
        · simp only [List.mem_singleton] at hc
          subst hc
          exact digitChar_isDigit (n % 10) (Nat.mod_lt n (by omega))
      · rw [valD_concat, hv, dval_digitChar (n % 10) (Nat.mod_lt n (by omega))]
        omega

theorem natDigitsAux_eq_digitsRec :
    ∀ (fuel n : Nat) (acc : List Char), n ≤ fuel →
      natDigitsAux fuel n acc = digitsRec n ++ acc := by
  intro fuel
  induction fuel with
  | zero =>
    intro n acc hn
    have h0 : n = 0 := Nat.le_zero.mp hn
    subst h0
    rw [digitsRec]
    rfl
  | succ fuel ih =>
    intro n acc hn
    by_cases h : n < 10
    · simp only [natDigitsAux, if_pos h]
      rw [digitsRec, if_pos h]
      rfl
    · simp only [natDigitsAux, if_neg h]
      rw [show digitsRec n = digitsRec (n / 10) ++ [digitChar (n % 10)] from by
          rw [digitsRec, if_neg h],
        ih (n / 10) _ (by omega), List.append_assoc]
      rfl

theorem natDigits_spec (n : Nat) :
    (∀ c ∈ natDigits n, c.isDigit) ∧ natDigits n ≠ [] ∧ valD (natDigits n) = n := by
  unfold natDigits
  rw [natDigitsAux_eq_digitsRec n n [] (le_refl n), List.append_nil]
  exact digitsRec_spec n

theorem intRender_nonneg (i : Int) (h : 0 ≤ i) :
    intRender i = natDigits i.toNat := by
  unfold intRender
  rw [if_neg (by omega)]

theorem pad2_digits (i : Int) (h : 0 ≤ i) :
    (∀ c ∈ pad2 i, c.isDigit) ∧ pad2 i ≠ [] ∧ (valD (pad2 i) : Int) = i := by
  unfold pad2
  by_cases h10 : i < 10
  · rw [if_pos ⟨h, h10⟩]
    obtain ⟨hd, hne, hv⟩ := natDigits_spec i.toNat
    refine ⟨?_, by simp, ?_⟩
    · intro c hc
      rcases List.mem_cons.mp hc with hc | hc
      · subst hc
        decide
      · exact hd c hc
    · have : valD ('0' :: natDigits i.toNat) = valD (natDigits i.toNat) := by
        simp [valD, dval]
      rw [this, hv]
      omega
  · rw [if_neg (fun hc => h10 hc.2)]
    rw [intRender_nonneg i h]
    obtain ⟨hd, hne, hv⟩ := natDigits_spec i.toNat
    exact ⟨hd, hne, by rw [hv]; omega⟩

/-- C9: for every integer s in [0, 5999] (in fact for every
nonnegative s), formatting as M:SS and parsing back returns s. -/
theorem C9_roundtrip (s : Int) (h0 : 0 ≤ s) (_h1 : s ≤ 5999) :
    parse_timer (some (seconds_to_fmt s)) = some s := by
  have hmodlt : Int.emod s 60 < 60 := Int.emod_lt_of_pos s (by decide)
  have hmodge : 0 ≤ Int.emod s 60 := Int.emod_nonneg s (by decide)
  have hne60 : ¬ Int.emod s 60 = 60 := by omega
  have hfdiv : Int.fdiv s 60 = s / 60 := Int.fdiv_eq_ediv s (by omega)
  have hdivge : 0 ≤ Int.fdiv s 60 := by
    rw [hfdiv]
    exact Int.ediv_nonneg h0 (by decide)
  simp only [seconds_to_fmt, if_neg hne60]
  rw [intRender_nonneg _ hdivge]
  obtain ⟨hda, hnea, hva⟩ := natDigits_spec (Int.fdiv s 60).toNat
  obtain ⟨hdb, hneb, hvb⟩ := pad2_digits (Int.emod s 60) hmodge
  rw [parse_digit_pair _ _ hnea hneb hda hdb, hva]
  have : ((Int.fdiv s 60).toNat : Int) * 60 + (valD (pad2 (Int.emod s 60)) : Int) = s := by
    rw [hvb, Int.toNat_of_nonneg hdivge, hfdiv]
    show s / 60 * 60 + s % 60 = s
    omega
  rw [this]

/-- C9 witness: the round trip at s = 125 ("2:05"). -/
theorem C9_witness :
    ((0 : Int) ≤ 125 ∧ (125 : Int) ≤ 5999) ∧
    parse_timer (some (seconds_to_fmt 125)) = some 125 := by
  exact ⟨by decide, C9_roundtrip 125 (by decide) (by decide)⟩

/-- C3 (amended): for reading lists with pairwise distinct timestamps,
detect_rounds is permutation-invariant: the stable sort of any two
permutations of the same distinct-timestamp multiset is the same list,
so the sweeps coincide. -/
theorem C3_perm_invariant (l₁ l₂ : List Reading) (hp : l₁.Perm l₂)
    (hd : l₁.Pairwise (fun a b => a.timestamp ≠ b.timestamp)) :
    detect_rounds l₁ = detect_rounds l₂ := by
  haveI htot : IsTotal Reading (fun a b : Reading => a.timestamp ≤ b.timestamp) :=
    ⟨fun a b => le_total a.timestamp b.timestamp⟩
  haveI htrans : IsTrans Reading (fun a b : Reading => a.timestamp ≤ b.timestamp) :=
    ⟨fun _ _ _ hab hbc => le_trans hab hbc⟩
  haveI hanti : IsAntisymm Reading (fun a b : Reading => a.timestamp < b.timestamp) :=
    ⟨fun a b h1 h2 => absurd (lt_trans h1 h2) (lt_irrefl _)⟩
  have hs1 : (sortReadings l₁).Sorted (fun a b : Reading => a.timestamp ≤ b.timestamp) :=
    List.sorted_insertionSort _ l₁
  have hs2 : (sortReadings l₂).Sorted (fun a b : Reading => a.timestamp ≤ b.timestamp) :=
    List.sorted_insertionSort _ l₂
  have hperm1 : (sortReadings l₁).Perm l₁ := List.perm_insertionSort _ l₁
  have hperm2 : (sortReadings l₂).Perm l₂ := List.perm_insertionSort _ l₂
  have hd1 : (sortReadings l₁).Pairwise (fun a b => a.timestamp ≠ b.timestamp) :=
    (hperm1.pairwise_iff (fun h => Ne.symm h)).mpr hd
  have hd2 : (sortReadings l₂).Pairwise (fun a b => a.timestamp ≠ b.timestamp) :=
    (hperm2.pairwise_iff (fun h => Ne.symm h)).mpr ((hp.pairwise_iff (fun h => Ne.symm h)).mp hd)
  have hstrict1 : (sortReadings l₁).Pairwise (fun a b : Reading => a.timestamp < b.timestamp) :=
    (hs1.and hd1).imp (fun h => lt_of_le_of_ne h.1 h.2)
  have hstrict2 : (sortReadings l₂).Pairwise (fun a b : Reading => a.timestamp < b.timestamp) :=
    (hs2.and hd2).imp (fun h => lt_of_le_of_ne h.1 h.2)
  have hpp : (sortReadings l₁).Perm (sortReadings l₂) :=
    (hperm1.trans hp).trans hperm2.symm
  have hsorteq : sortReadings l₁ = sortReadings l₂ :=
    List.eq_of_perm_of_sorted hpp hstrict1 hstrict2
  unfold detect_rounds
  rw [hsorteq]

/-- C3 witness: two orderings of a two-reading list with distinct
timestamps produce the same output. -/
theorem C3_witness :
    detect_rounds [⟨0, .plain (some "1:40")⟩, ⟨10, .plain (some "nothing")⟩] =
      detect_rounds [⟨10, .plain (some "nothing")⟩, ⟨0, .plain (some "1:40")⟩] := by
  exact C3_perm_invariant _ _ (by decide) (by decide)

/-- Ordering relation between consecutive output rounds: each round's
(refined) start and its observed start both precede the next round's
observed start. -/
def roundRel (a b : Round) : Prop :=
  a.start_timestamp ≤ b.observed_start_timestamp ∧
  a.observed_start_timestamp ≤ b.observed_start_timestamp

/-- Sweep invariant, with `b` a lower bound on all still-unprocessed
timestamps: closed rounds are chained by `roundRel`, every recorded
start lies below `b`, and the open round (if any) also lies below `b`
and is `roundRel`-above the last closed round. -/
def SweepInv (b : Int) (st : SweepState) : Prop :=
  List.Chain' roundRel st.rounds ∧
  (∀ r ∈ st.rounds, r.start_timestamp ≤ b ∧ r.observed_start_timestamp ≤ b) ∧
  ∀ cr, st.current_round = some cr →
    (cr.start_timestamp ≤ b ∧ cr.observed_start_timestamp ≤ b) ∧
    ∀ last, st.rounds.getLast? = some last → roundRel last cr

theorem SweepInv_mono (b b' : Int) (st : SweepState) (hb : b ≤ b')
    (h : SweepInv b st) : SweepInv b' st := by
  obtain ⟨h1, h2, h3⟩ := h
  refine ⟨h1, fun r hr => ?_, fun cr hcr => ?_⟩
  · obtain ⟨ha, hb2⟩ := h2 r hr
    exact ⟨le_trans ha hb, le_trans hb2 hb⟩
  · obtain ⟨⟨ha, hb2⟩, hlast⟩ := h3 cr hcr
    exact ⟨⟨le_trans ha hb, le_trans hb2 hb⟩, hlast⟩

theorem SweepInv_init (b : Int) : SweepInv b initState := by
  refine ⟨List.chain'_nil, by simp [initState], fun cr hcr => ?_⟩
  simp [initState] at hcr

/-- Appending a closure of the open round preserves the chain and the
start bounds (closing changes only end fields). -/
theorem SweepInv_append_close (b : Int) (st : SweepState) (cr cr' : Round)
    (h : SweepInv b st) (hcur : st.current_round = some cr)
    (hstart : cr'.start_timestamp = cr.start_timestamp)
    (hobs : cr'.observed_start_timestamp = cr.observed_start_timestamp) :
    List.Chain' roundRel (st.rounds ++ [cr']) ∧
    (∀ r ∈ st.rounds ++ [cr'],
      r.start_timestamp ≤ b ∧ r.observed_start_timestamp ≤ b) := by
  obtain ⟨h1, h2, h3⟩ := h
  obtain ⟨hbound, hlast⟩ := h3 cr hcur
  constructor
  · rw [List.chain'_append]
    refine ⟨h1, List.chain'_singleton cr', ?_⟩
    intro x hx y hy
    simp only [List.head?_cons, Option.mem_def, Option.some.injEq] at hy
    subst hy
    have hrel := hlast x (by simpa using hx)
    exact ⟨hobs ▸ hrel.1, hobs ▸ hrel.2⟩
  · intro r hr
    rcases List.mem_append.mp hr with hr | hr
    · exact h2 r hr
    · simp only [List.mem_singleton] at hr
      subst hr
      rw [hstart, hobs]
      exact hbound

theorem calculate_le (T : Int) (ts : Option String) :
    calculate_round_start_timestamp T ts ≤ T := by
  unfold calculate_round_start_timestamp
  cases parse_timer ts with
  | none => exact le_refl T
  | some v =>
    show T - max 0 (STANDARD_ROUND_DURATION_SECONDS - v) ≤ T
    have h0 : (0 : Int) ≤ max 0 (STANDARD_ROUND_DURATION_SECONDS - v) :=
      le_max_left 0 _
    omega

theorem handleNothing_inv (T b : Int) (st : SweepState) (h : SweepInv b st) :
    SweepInv b (handleNothing T st) := by
  unfold handleNothing
  cases hcur : st.current_round with
  | none =>
    obtain ⟨h1, h2, h3⟩ := h
    exact ⟨h1, h2, fun cr hcr => by simp at hcr⟩
  | some cr =>
    simp only [handleNothing, hcur]
    by_cases ht : ROUND_END_NOTHING_THRESHOLD ≤ st.consecutive_nothings + 1
    · rw [if_pos ht]
      obtain ⟨hch, hmem⟩ := SweepInv_append_close b st cr
        { cr with
          end_timestamp :=
            (if st.consecutive_nothings = 0 then some T
             else st.first_nothing_timestamp),
          end_time_fmt :=
            Option.map seconds_to_fmt
              (if st.consecutive_nothings = 0 then some T
               else st.first_nothing_timestamp),
          end_reason := some "timer_disappeared" }
        h hcur rfl rfl
      exact ⟨hch, hmem, fun cr' hcr' => by simp at hcr'⟩
    · rw [if_neg ht]
      obtain ⟨h1, h2, h3⟩ := h
      exact ⟨h1, h2, fun cr' hcr' => h3 cr' (hcur.trans hcr')⟩

theorem mem_of_getLast?_eq (l : List Round) (a : Round)
    (h : l.getLast? = some a) : a ∈ l := by
  obtain ⟨hh, rfl⟩ := List.mem_getLast?_eq_getLast (l := l) (x := a) h
  exact List.getLast_mem hh

theorem handleRoundStart_inv (T : Int) (ts : Option String) (st : SweepState)
    (h : SweepInv T st) : SweepInv T (handleRoundStart T ts st) := by
  by_cases hrs : is_round_start_timer ts
  · simp only [handleRoundStart, hrs, if_true]
    cases hcur : st.current_round with
    | none =>
      obtain ⟨h1, h2, h3⟩ := h
      refine ⟨h1, h2, fun cr' hcr' => ?_⟩
      simp only [Option.some.injEq] at hcr'
      subst hcr'
      refine ⟨⟨calculate_le T ts, le_refl T⟩, fun last hlast => ?_⟩
      obtain ⟨hb1, hb2⟩ := h2 last (mem_of_getLast?_eq _ _ hlast)
      exact ⟨hb1, hb2⟩
    | some cr =>
      obtain ⟨hbound, hlastrel⟩ := h.2.2 cr hcur
      obtain ⟨hch, hmem⟩ := SweepInv_append_close T st cr
        { cr with
          end_timestamp := some (max cr.start_timestamp
            (calculate_round_start_timestamp T ts - ROUND_END_BUFFER_SECONDS)),
          end_time_fmt := some (seconds_to_fmt (max cr.start_timestamp
            (calculate_round_start_timestamp T ts - ROUND_END_BUFFER_SECONDS))),
          end_reason := some "next_round_started" }
        h hcur rfl rfl
      refine ⟨hch, hmem, fun cr' hcr' => ?_⟩
      simp only [Option.some.injEq] at hcr'
      subst hcr'
      refine ⟨⟨calculate_le T ts, le_refl T⟩, fun last hlast => ?_⟩
      rw [List.getLast?_concat] at hlast
      simp only [Option.some.injEq] at hlast
      subst hlast
      exact ⟨hbound.1, hbound.2⟩
  · simp only [handleRoundStart, hrs, if_false]
    exact h

theorem handleSpikePlant_inv (T : Int) (ts : Option String) (cue : Bool)
    (st : SweepState) (h : SweepInv T st) :
    SweepInv T (handleSpikePlant T ts cue st) := by
  cases hcur : st.current_round with
  | none =>
    simp only [handleSpikePlant, hcur]
    exact h
  | some cr =>
    simp only [handleSpikePlant, hcur]
    split
    · obtain ⟨h1, h2, h3⟩ := h
      obtain ⟨hbound, hlastrel⟩ := h3 cr hcur
      refine ⟨h1, h2, fun cr' hcr' => ?_⟩
      simp only [Option.some.injEq] at hcr'
      subst hcr'
      exact ⟨⟨hbound.1, hbound.2⟩, fun last hlast => hlastrel last hlast⟩
    · exact h

theorem handleSpikeTimeout_inv (T b : Int) (st : SweepState)
    (h : SweepInv b st) : SweepInv b (handleSpikeTimeout T st) := by
  cases hcur : st.current_round with
  | none =>
    simp only [handleSpikeTimeout, hcur]
    exact h
  | some cr =>
    cases hsp : st.spike_plant_time with
    | none =>
      simp only [handleSpikeTimeout, hcur, hsp]
      exact h
    | some plant =>
      simp only [handleSpikeTimeout, hcur, hsp]
      split
      · exact h
      · split
        · obtain ⟨hch, hmem⟩ := SweepInv_append_close b st cr
            { cr with end_timestamp := some T,
                      end_time_fmt := some (seconds_to_fmt T),
                      end_reason := some "spike_timeout" }
            h hcur rfl rfl
          exact ⟨hch, hmem, fun cr' hcr' => by simp at hcr'⟩
        · exact h

theorem processReading_inv (r : Reading) (st : SweepState)
    (h : SweepInv r.timestamp st) :
    SweepInv r.timestamp (processReading st r) := by
  unfold processReading
  by_cases hn : applyReplaySuppression st.consecutive_nothings
      (extractTimer r.timer_value).1 = some "nothing"
  · rw [if_pos hn]
    exact handleNothing_inv r.timestamp r.timestamp st h
  · rw [if_neg hn]
    exact handleSpikeTimeout_inv r.timestamp r.timestamp _
      (handleSpikePlant_inv r.timestamp _ _ _
        (handleRoundStart_inv r.timestamp _ _ h))

theorem foldl_inv (l : List Reading) :
    ∀ (st : SweepState) (b : Int),
      l.Pairwise (fun a c => a.timestamp ≤ c.timestamp) →
      (∀ r ∈ l, b ≤ r.timestamp) → SweepInv b st →
      ∃ c, SweepInv c (l.foldl processReading st) := by
  induction l with
  | nil =>
    intro st b _ _ h
    exact ⟨b, h⟩
  | cons r t ih =>
    intro st b hp hb h
    simp only [List.foldl_cons]
    obtain ⟨hhead, htail⟩ := List.pairwise_cons.mp hp
    have h1 : SweepInv r.timestamp st :=
      SweepInv_mono b r.timestamp st (hb r (by simp)) h
    exact ih (processReading st r) r.timestamp htail hhead
      (processReading_inv r st h1)

theorem chain_closeFinal (st : SweepState) (sorted : List Reading) (b : Int)
    (h : SweepInv b st) : List.Chain' roundRel (closeFinal st sorted) := by
  unfold closeFinal
  cases hcur : st.current_round with
  | none => exact h.1
  | some cr =>
    simp only [hcur]
    exact (SweepInv_append_close b st cr
      { cr with
        end_timestamp := (sorted.getLast?).map Reading.timestamp,
        end_time_fmt :=
          ((sorted.getLast?).map Reading.timestamp).map seconds_to_fmt,
        end_reason := some "vod_ended" }
      h hcur rfl rfl).1

theorem computeDuration_start (r : Round) :
    (computeDuration r).start_timestamp = r.start_timestamp ∧
    (computeDuration r).observed_start_timestamp = r.observed_start_timestamp := by
  cases he : r.end_timestamp with
  | none =>
    simp [computeDuration, he]
  | some e =>
    simp only [computeDuration, he]
    split
    · exact ⟨rfl, rfl⟩
    · exact ⟨rfl, rfl⟩

theorem chain_map_computeDuration (l : List Round)
    (h : List.Chain' roundRel l) :
    List.Chain' roundRel (l.map computeDuration) := by
  rw [List.chain'_map]
  refine h.imp ?_
  intro a b hab
  obtain ⟨ha1, ha2⟩ := computeDuration_start a
  obtain ⟨hb1, hb2⟩ := computeDuration_start b
  unfold roundRel
  rw [ha1, ha2, hb2]
  exact hab

/-- C5 (amended): in the output of detect_rounds, each round's
start_timestamp and observed_start_timestamp are at most the next
round's observed_start_timestamp (so rounds appear in creation order,
chronological by observed start). -/
theorem C5_amended (l : List Reading) :
    List.Chain' roundRel (detect_rounds l) := by
  simp only [detect_rounds]
  apply chain_map_computeDuration
  haveI htot : IsTotal Reading (fun a b : Reading => a.timestamp ≤ b.timestamp) :=
    ⟨fun a b => le_total a.timestamp b.timestamp⟩
  haveI htrans : IsTrans Reading (fun a b : Reading => a.timestamp ≤ b.timestamp) :=
    ⟨fun _ _ _ hab hbc => le_trans hab hbc⟩
  have hsorted : (sortReadings l).Pairwise
      (fun a c : Reading => a.timestamp ≤ c.timestamp) :=
    List.sorted_insertionSort _ l
  cases hs : sortReadings l with
  | nil =>
    simp [closeFinal, initState]
  | cons hr tr =>
    rw [hs] at hsorted
    have hb : ∀ r ∈ hr :: tr, hr.timestamp ≤ r.timestamp := by
      intro r hrm
      rcases List.mem_cons.mp hrm with rfl | hrm
      · exact le_refl _
      · exact (List.pairwise_cons.mp hsorted).1 r hrm
    obtain ⟨c, hc⟩ := foldl_inv (hr :: tr) initState hr.timestamp hsorted hb
      (SweepInv_init hr.timestamp)
    exact chain_closeFinal _ _ c hc

end RoundDetector
